import Mathlib

/-!
Verification of the sandboxed command-execution subsystem of this repository.

The development shallowly embeds:
* `src/integrations/terminal/OutputInterceptor.ts` — preview buffering with
  one-time spill to an on-disk artifact;
* `src/core/tools/ReadCommandOutputTool.ts` — artifact retrieval with a
  path-traversal guard and offset/limit pagination;
* the terminal-spawning extract (`codex-extract-terminal-spawning-tool.md`) —
  shell argv derivation, sandbox selection, the approval/retry orchestration,
  and the head/tail output buffer.

JavaScript strings are modelled as lists of UTF-16 code units (natural
numbers), so that both `Buffer.byteLength(s, "utf8")` and the code-unit
semantics of `String.prototype.slice` can be expressed faithfully.
-/

/-- A JavaScript string: a sequence of UTF-16 code units. -/
abbrev JsStr := List Nat

/-- A UTF-16 high-surrogate code unit. -/
def isHighSurrogate (u : Nat) : Prop := 0xD800 ≤ u ∧ u ≤ 0xDBFF

/-- A UTF-16 low-surrogate code unit. -/
def isLowSurrogate (u : Nat) : Prop := 0xDC00 ≤ u ∧ u ≤ 0xDFFF

instance (u : Nat) : Decidable (isHighSurrogate u) := by
  unfold isHighSurrogate; infer_instance

instance (u : Nat) : Decidable (isLowSurrogate u) := by
  unfold isLowSurrogate; infer_instance

/-- UTF-8 byte cost of a single UTF-16 code unit that is not part of a
surrogate pair (a lone surrogate is encoded as the 3-byte replacement
character by Node's `Buffer.byteLength`). -/
def unitLen (u : Nat) : Nat := if u < 0x80 then 1 else if u < 0x800 then 2 else 3

/-- `Buffer.byteLength(s, "utf8")`: UTF-8 byte length of a JS string, with a
high/low surrogate pair costing 4 bytes. -/
def byteLength : JsStr → Nat
  | [] => 0
  | [u] => unitLen u
  | u :: v :: rest =>
    if isHighSurrogate u ∧ isLowSurrogate v then 4 + byteLength rest
    else unitLen u + byteLength (v :: rest)

/-- A string free of surrogate code units: ordinary text (all of ASCII and
the basic multilingual plane except the surrogate range). -/
def noSurrogate (s : JsStr) : Prop := ∀ u ∈ s, ¬(0xD800 ≤ u ∧ u < 0xE000)

instance (s : JsStr) : Decidable (noSurrogate s) := by
  unfold noSurrogate; infer_instance

theorem unitLen_pos (u : Nat) : 1 ≤ unitLen u := by
  unfold unitLen; split <;> [omega; split <;> omega]

theorem byteLength_cons_of_not_high {u : Nat} (l : JsStr)
    (h : ¬ isHighSurrogate u) :
    byteLength (u :: l) = unitLen u + byteLength l := by
  cases l with
  | nil => simp [byteLength]
  | cons v rest =>
    have hc : ¬(isHighSurrogate u ∧ isLowSurrogate v) := fun hx => h hx.1
    simp [byteLength, hc]

theorem not_high_of_noSurrogate {u : Nat} (h : ¬(0xD800 ≤ u ∧ u < 0xE000)) :
    ¬ isHighSurrogate u := by
  intro hc
  obtain ⟨h1, h2⟩ := hc
  exact h ⟨h1, by omega⟩

theorem noSurrogate_cons {u : Nat} {l : JsStr} (h : noSurrogate (u :: l)) :
    ¬(0xD800 ≤ u ∧ u < 0xE000) ∧ noSurrogate l := by
  constructor
  · exact h u (List.mem_cons_self u l)
  · intro v hv
    exact h v (List.mem_cons_of_mem u hv)

theorem byteLength_append {a : JsStr} (b : JsStr) (h : noSurrogate a) :
    byteLength (a ++ b) = byteLength a + byteLength b := by
  induction a with
  | nil => simp [byteLength]
  | cons u rest ih =>
    obtain ⟨hu, hrest⟩ := noSurrogate_cons h
    rw [List.cons_append, byteLength_cons_of_not_high _ (not_high_of_noSurrogate hu),
      byteLength_cons_of_not_high _ (not_high_of_noSurrogate hu), ih hrest]
    omega

theorem length_le_byteLength {l : JsStr} (h : noSurrogate l) :
    l.length ≤ byteLength l := by
  induction l with
  | nil => simp [byteLength]
  | cons u rest ih =>
    obtain ⟨hu, hrest⟩ := noSurrogate_cons h
    rw [byteLength_cons_of_not_high _ (not_high_of_noSurrogate hu)]
    have := unitLen_pos u
    have := ih hrest
    simp only [List.length_cons]
    omega

theorem take_eq_self_of_byteLength_le {l : JsStr} {T : Nat}
    (h : noSurrogate l) (hle : byteLength l ≤ T) : l.take T = l :=
  List.take_of_length_le (le_trans (length_le_byteLength h) hle)

/-!
## OutputInterceptor (`src/integrations/terminal/OutputInterceptor.ts`)

The interceptor accumulates output in memory; once the UTF-8 byte length of
the accumulated buffer exceeds the configured preview threshold it spills the
buffer to a uniquely named artifact file and appends every later chunk
directly to that file. The filesystem is modelled by the `fileContents`
field (`Option.none` until `createWriteStream` runs); `spillCount` is a ghost
counter recording how many times `spillToDisk` executed.
-/

/-- Size category for the preview buffer (small/medium/large). -/
inductive TerminalOutputPreviewSize where
  | small
  | medium
  | large
deriving DecidableEq

/-- Modelled from the spec: `TERMINAL_PREVIEW_BYTES` lives in the
`@roo-code/types` package, which is not under `src/`; the spec and the
module documentation give the 2/4/8 KiB tiers. -/
def TERMINAL_PREVIEW_BYTES : TerminalOutputPreviewSize → Nat
  | .small => 2048
  | .medium => 4096
  | .large => 8192

/-- Configuration options for creating an OutputInterceptor instance. -/
structure OutputInterceptorOptions where
  executionId : String
  taskId : String
  command : String
  storageDir : String
  previewSize : TerminalOutputPreviewSize
  compressProgressBar : Bool

/-- `path.join(options.storageDir, "cmd-" + options.executionId + ".txt")`. -/
def artifactPathOf (opts : OutputInterceptorOptions) : String :=
  opts.storageDir ++ "/cmd-" ++ opts.executionId ++ ".txt"

/-- Mutable fields of an `OutputInterceptor`, plus the modelled artifact file
(`fileContents`) and the ghost spill counter. -/
structure InterceptorState where
  buffer : JsStr
  fileContents : Option JsStr
  totalBytes : Nat
  spilledToDisk : Bool
  spillCount : Nat
deriving DecidableEq

/-- Field initialisers of the `OutputInterceptor` class. -/
def initState : InterceptorState :=
  { buffer := [], fileContents := Option.none, totalBytes := 0,
    spilledToDisk := false, spillCount := 0 }

/-- `spillToDisk()`: write the whole accumulated buffer to the artifact file,
switch to streaming mode, and keep only the preview portion in memory.
`this.buffer.slice(0, this.previewBytes)` slices by UTF-16 code units, which
`List.take` models exactly. -/
def spillToDisk (T : Nat) (st : InterceptorState) : InterceptorState :=
  { st with fileContents := some st.buffer,
            spilledToDisk := true,
            spillCount := st.spillCount + 1,
            buffer := st.buffer.take T }

/-- `write(chunk)`: count the chunk's bytes; in buffer mode append to the
in-memory buffer and spill when its byte length exceeds the threshold; in
spill mode append the chunk directly to the artifact file. -/
def write (T : Nat) (st : InterceptorState) (chunk : JsStr) : InterceptorState :=
  let st1 := { st with totalBytes := st.totalBytes + byteLength chunk }
  if st1.spilledToDisk then
    { st1 with fileContents := Option.map (fun f => f ++ chunk) st1.fileContents }
  else
    let st2 := { st1 with buffer := st1.buffer ++ chunk }
    if T < byteLength st2.buffer then spillToDisk T st2 else st2

/-- Modelled from the spec: `processCarriageReturns` from
`src/integrations/misc/extract-text.ts` (not under `src/`); within each line,
a carriage return discards the text written so far on that line, so only the
final state of each progress line survives. Code unit 10 is `\n`, 13 is `\r`. -/
def processCRGo (cur : JsStr) : JsStr → JsStr
  | [] => cur
  | u :: rest =>
    if u = 10 then cur ++ [10] ++ processCRGo [] rest
    else if u = 13 then processCRGo [] rest
    else processCRGo (cur ++ [u]) rest

/-- Modelled from the spec: collapse carriage-return progress updates. -/
def processCarriageReturns (s : JsStr) : JsStr := processCRGo [] s

/-- Modelled from the spec: `processBackspaces` from
`src/integrations/misc/extract-text.ts` (not under `src/`); a backspace
(code unit 8) erases the previous character. The accumulator holds the
output so far in reverse. -/
def processBSGo (acc : JsStr) : JsStr → JsStr
  | [] => acc.reverse
  | u :: rest =>
    if u = 8 then processBSGo (acc.drop 1) rest
    else processBSGo (u :: acc) rest

/-- Modelled from the spec: apply backspace erasure. -/
def processBackspaces (s : JsStr) : JsStr := processBSGo [] s

/-- The result record returned by `finalize()` (shape from
`PersistedCommandOutput` in `@roo-code/types`). -/
structure PersistedCommandOutput where
  preview : JsStr
  totalBytes : Nat
  artifactPath : Option String
  truncated : Bool

/-- `finalize()`: slice the preview, optionally collapse carriage returns and
backspaces in it, and report the total byte count, artifact path and
truncation flag. The artifact file itself is not touched (the stream is
merely closed). -/
def finalize (opts : OutputInterceptorOptions) (st : InterceptorState) :
    PersistedCommandOutput :=
  let T := TERMINAL_PREVIEW_BYTES opts.previewSize
  let preview0 := st.buffer.take T
  let preview := if opts.compressProgressBar
    then processBackspaces (processCarriageReturns preview0) else preview0
  { preview := preview,
    totalBytes := st.totalBytes,
    artifactPath := if st.spilledToDisk then some (artifactPathOf opts) else Option.none,
    truncated := st.spilledToDisk }

/-- The state after writing a sequence of chunks to a fresh interceptor with
preview threshold `T`. -/
def runWrites (T : Nat) (chunks : List JsStr) : InterceptorState :=
  chunks.foldl (write T) initState

/-- The state after writing a sequence of chunks to a fresh interceptor
configured by `opts`. -/
def runOn (opts : OutputInterceptorOptions) (chunks : List JsStr) : InterceptorState :=
  runWrites (TERMINAL_PREVIEW_BYTES opts.previewSize) chunks

/-- Every chunk of the list is surrogate-free text. -/
def noSurrogateAll (cs : List JsStr) : Prop := ∀ c ∈ cs, noSurrogate c

instance (cs : List JsStr) : Decidable (noSurrogateAll cs) := by
  unfold noSurrogateAll; infer_instance

theorem noSurrogate_join {cs : List JsStr} (h : noSurrogateAll cs) :
    noSurrogate cs.flatten := by
  intro u hu
  obtain ⟨l, hl, hul⟩ := List.mem_flatten.mp hu
  exact h l hl u hul

theorem write_totalBytes (T : Nat) (st : InterceptorState) (c : JsStr) :
    (write T st c).totalBytes = st.totalBytes + byteLength c := by
  unfold write spillToDisk
  by_cases h : st.spilledToDisk
  · simp [h]
  · simp only [h, Bool.false_eq_true, if_false]
    split <;> rfl

theorem runWrites_snoc (T : Nat) (cs : List JsStr) (c : JsStr) :
    runWrites T (cs ++ [c]) = write T (runWrites T cs) c := by
  simp [runWrites, List.foldl_append]

theorem runWrites_totalBytes (T : Nat) (cs : List JsStr) :
    (runWrites T cs).totalBytes = (cs.map byteLength).sum := by
  induction cs using List.reverseRecOn with
  | nil => rfl
  | append_singleton cs c ih =>
    rw [runWrites_snoc, write_totalBytes, ih]
    simp

/-- Core behaviour of the write loop on surrogate-free chunks: while the
concatenated output fits in the preview threshold the interceptor stays in
buffer mode holding exactly the full output; once the output exceeds the
threshold it has spilled exactly once and the artifact file holds the full
concatenation of all chunks. -/
theorem runWrites_spec (T : Nat) (cs : List JsStr) (h : noSurrogateAll cs) :
    (byteLength cs.flatten ≤ T →
      (runWrites T cs).buffer = cs.flatten ∧
      (runWrites T cs).spilledToDisk = false ∧
      (runWrites T cs).fileContents = Option.none ∧
      (runWrites T cs).spillCount = 0) ∧
    (T < byteLength cs.flatten →
      (runWrites T cs).spilledToDisk = true ∧
      (runWrites T cs).fileContents = some cs.flatten ∧
      (runWrites T cs).spillCount = 1) := by
  induction cs using List.reverseRecOn with
  | nil =>
    constructor
    · intro _
      exact ⟨rfl, rfl, rfl, rfl⟩
    · intro hlt
      simp [byteLength] at hlt
  | append_singleton cs c ih =>
    have hcs : noSurrogateAll cs := fun x hx => h x (List.mem_append_left _ hx)
    have hc : noSurrogate c := h c (List.mem_append_right _ (List.mem_cons_self c []))
    have hflat : (cs ++ [c]).flatten = cs.flatten ++ c := by
      simp
    have hadd : byteLength (cs.flatten ++ c) =
        byteLength cs.flatten + byteLength c := byteLength_append c (noSurrogate_join hcs)
    obtain ⟨ihU, ihO⟩ := ih hcs
    rw [runWrites_snoc, hflat]
    by_cases hcase : byteLength cs.flatten ≤ T
    · -- previous state is still in buffer mode
      obtain ⟨hbuf, hsp, hfc, hcount⟩ := ihU hcase
      constructor
      · intro hle
        have hnot : ¬ T < byteLength (cs.flatten ++ c) := by omega
        unfold write
        simp [hsp, hfc, hcount, hbuf, hnot]
      · intro hgt
        unfold write spillToDisk
        simp [hsp, hfc, hcount, hbuf, hgt]
    · -- previous state has already spilled
      have hlt : T < byteLength cs.flatten := by omega
      obtain ⟨hsp, hfc, hcount⟩ := ihO hlt
      constructor
      · intro hle
        omega
      · intro _
        unfold write
        simp [hsp, hfc, hcount]

theorem byteLength_replicate (n u : Nat) (h : ¬ isHighSurrogate u) :
    byteLength (List.replicate n u) = n * unitLen u := by
  induction n with
  | zero => simp [byteLength]
  | succ k ih =>
    rw [List.replicate_succ, byteLength_cons_of_not_high _ h, ih]
    ring

theorem noSurrogate_replicate (n u : Nat) (h : ¬(0xD800 ≤ u ∧ u < 0xE000)) :
    noSurrogate (List.replicate n u) := by
  intro x hx
  rw [List.eq_of_mem_replicate hx]
  exact h

theorem runWrites_single_over (T : Nat) (c : JsStr) (hgt : T < byteLength c) :
    runWrites T [c] =
      { buffer := c.take T, fileContents := some c, totalBytes := byteLength c,
        spilledToDisk := true, spillCount := 1 } := by
  unfold runWrites initState write spillToDisk
  simp [hgt]

/-- Concrete interceptor configuration used in concrete evaluations: the
small preview tier (2048 bytes). -/
def sampleOpts : OutputInterceptorOptions :=
  { executionId := "1", taskId := "t", command := "c", storageDir := "s",
    previewSize := TerminalOutputPreviewSize.small, compressProgressBar := false }

/-- Claim C1: for every sequence of chunks written to an OutputInterceptor,
if the total written bytes (the UTF-8 byte length of the concatenated
output) stay at or below the configured preview threshold then `finalize()`
returns `truncated = false`, `artifactPath = null`, and (without progress-bar
compression) a preview equal to the full written output; if they exceed the
threshold, `finalize()` returns `truncated = true` and a non-null artifact
path. Chunks are assumed to be surrogate-free text. -/
theorem outputInterceptor_truncation_iff_threshold
    (opts : OutputInterceptorOptions) (cs : List JsStr) (h : noSurrogateAll cs) :
    (byteLength cs.flatten ≤ TERMINAL_PREVIEW_BYTES opts.previewSize →
      (finalize opts (runOn opts cs)).truncated = false ∧
      (finalize opts (runOn opts cs)).artifactPath = Option.none ∧
      (opts.compressProgressBar = false →
        (finalize opts (runOn opts cs)).preview = cs.flatten)) ∧
    (TERMINAL_PREVIEW_BYTES opts.previewSize < byteLength cs.flatten →
      (finalize opts (runOn opts cs)).truncated = true ∧
      (finalize opts (runOn opts cs)).artifactPath ≠ Option.none) := by
  obtain ⟨hU, hO⟩ := runWrites_spec (TERMINAL_PREVIEW_BYTES opts.previewSize) cs h
  constructor
  · intro hle
    obtain ⟨hbuf, hsp, hfc, _⟩ := hU hle
    have htake : cs.flatten.take (TERMINAL_PREVIEW_BYTES opts.previewSize) = cs.flatten :=
      take_eq_self_of_byteLength_le (noSurrogate_join h) hle
    refine ⟨?_, ?_, ?_⟩
    · simp [finalize, runOn, hsp]
    · simp [finalize, runOn, hsp]
    · intro hcf
      simp [finalize, runOn, hcf, hbuf, htake]
  · intro hgt
    obtain ⟨hsp, _, _⟩ := hO hgt
    constructor
    · simp [finalize, runOn, hsp]
    · simp [finalize, runOn, hsp]

/-- Witness for claim C1: writing the two-byte output "hi" under the small
(2048-byte) tier keeps everything in memory and previews it verbatim. -/
theorem outputInterceptor_truncation_iff_threshold_witness :
    (finalize sampleOpts (runOn sampleOpts [[104, 105]])).truncated = false ∧
    (finalize sampleOpts (runOn sampleOpts [[104, 105]])).preview = [104, 105] :=
  have hmain := outputInterceptor_truncation_iff_threshold sampleOpts [[104, 105]] (by decide)
  ⟨(hmain.1 (by decide)).1, (hmain.1 (by decide)).2.2 rfl⟩

/-- Claim C2 (code bug): the spec promises that the preview returned after a
spill has UTF-8 byte length at most the threshold, and the repository's own
test asserts `Buffer.byteLength(result.preview, "utf8") ≤ 2048`; but the code
freezes the preview with `String.prototype.slice(0, previewBytes)`, which
counts UTF-16 code units, not bytes. Writing 1025 copies of "é" (code unit
233, two UTF-8 bytes each, 2050 bytes total) under the small 2048-byte tier
spills, yet the returned preview is the whole string: 2050 bytes, above the
threshold. -/
theorem outputInterceptor_preview_bytes_code_bug :
    (finalize sampleOpts (runOn sampleOpts [List.replicate 1025 233])).truncated = true ∧
    TERMINAL_PREVIEW_BYTES TerminalOutputPreviewSize.small <
      (finalize sampleOpts (runOn sampleOpts [List.replicate 1025 233])).totalBytes ∧
    TERMINAL_PREVIEW_BYTES TerminalOutputPreviewSize.small <
      byteLength (finalize sampleOpts (runOn sampleOpts [List.replicate 1025 233])).preview := by
  have hb : byteLength (List.replicate 1025 233) = 2050 := by
    rw [byteLength_replicate 1025 233 (not_high_of_noSurrogate (by omega))]
    norm_num [unitLen]
  have htk : (List.replicate 1025 233 : JsStr).take 2048 = List.replicate 1025 233 :=
    List.take_of_length_le (by rw [List.length_replicate]; norm_num)
  have hrun : runOn sampleOpts [List.replicate 1025 233] =
      { buffer := List.replicate 1025 233, fileContents := some (List.replicate 1025 233),
        totalBytes := 2050, spilledToDisk := true, spillCount := 1 } := by
    unfold runOn
    rw [show TERMINAL_PREVIEW_BYTES sampleOpts.previewSize = 2048 from rfl,
      runWrites_single_over 2048 (List.replicate 1025 233) (by rw [hb]; norm_num),
      htk, hb]
  refine ⟨?_, ?_, ?_⟩
  · rw [hrun]
    rfl
  · rw [hrun]
    norm_num [finalize, TERMINAL_PREVIEW_BYTES]
  · rw [hrun]
    simp only [finalize, sampleOpts, TERMINAL_PREVIEW_BYTES]
    rw [if_neg (by simp), htk, hb]
    norm_num

/-- Claim C9: the `totalBytes` field returned by `finalize()` is the sum of
the UTF-8 byte lengths of all written chunks, whether or not the output
spilled to disk. -/
theorem outputInterceptor_totalBytes_sum
    (opts : OutputInterceptorOptions) (cs : List JsStr) :
    (finalize opts (runOn opts cs)).totalBytes = (cs.map byteLength).sum := by
  simp [finalize, runOn, runWrites_totalBytes]

/-- Claim C4: when the written output exceeds the preview threshold the
spill happens exactly once, the artifact file named
`cmd-<executionId>.txt` receives the byte-for-byte concatenation of all
written chunks (chunks after the spill are appended directly), and the
carriage-return/backspace compression, when enabled, is applied only to the
returned preview — the modelled file contents equal the raw concatenation
for every value of the `compressProgressBar` flag. -/
theorem outputInterceptor_artifact_raw_single_spill
    (opts : OutputInterceptorOptions) (cs : List JsStr) (h : noSurrogateAll cs)
    (hgt : TERMINAL_PREVIEW_BYTES opts.previewSize < byteLength cs.flatten) :
    (runOn opts cs).spillCount = 1 ∧
    (runOn opts cs).fileContents = some cs.flatten ∧
    (finalize opts (runOn opts cs)).artifactPath =
      some (opts.storageDir ++ "/cmd-" ++ opts.executionId ++ ".txt") ∧
    (opts.compressProgressBar = true →
      (finalize opts (runOn opts cs)).preview =
        processBackspaces (processCarriageReturns
          ((runOn opts cs).buffer.take (TERMINAL_PREVIEW_BYTES opts.previewSize)))) := by
  obtain ⟨_, hO⟩ := runWrites_spec (TERMINAL_PREVIEW_BYTES opts.previewSize) cs h
  obtain ⟨hsp, hfc, hcount⟩ := hO hgt
  refine ⟨hcount, hfc, ?_, ?_⟩
  · simp [finalize, runOn, artifactPathOf, hsp]
  · intro hcf
    simp [finalize, runOn, hcf]

/-- Witness for claim C4: one 2100-byte ASCII chunk under the small tier
spills once and lands byte-for-byte in `s/cmd-1.txt`. -/
theorem outputInterceptor_artifact_raw_single_spill_witness :
    (runOn sampleOpts [List.replicate 2100 104]).spillCount = 1 ∧
    (runOn sampleOpts [List.replicate 2100 104]).fileContents =
      some ([List.replicate 2100 104] : List JsStr).flatten ∧
    (finalize sampleOpts (runOn sampleOpts [List.replicate 2100 104])).artifactPath =
      some (sampleOpts.storageDir ++ "/cmd-" ++ sampleOpts.executionId ++ ".txt") ∧
    (sampleOpts.compressProgressBar = true →
      (finalize sampleOpts (runOn sampleOpts [List.replicate 2100 104])).preview =
        processBackspaces (processCarriageReturns
          ((runOn sampleOpts [List.replicate 2100 104]).buffer.take
            (TERMINAL_PREVIEW_BYTES sampleOpts.previewSize)))) :=
  outputInterceptor_artifact_raw_single_spill sampleOpts [List.replicate 2100 104]
    (by intro c hc
        rw [List.mem_singleton.mp hc]
        exact noSurrogate_replicate _ _ (by omega))
    (by have hbl : byteLength (List.replicate 2100 104) = 2100 := by
          rw [byteLength_replicate 2100 104 (not_high_of_noSurrogate (by omega))]
          norm_num [unitLen]
        simp only [List.flatten_cons, List.flatten_nil, List.append_nil]
        rw [hbl]
        norm_num [sampleOpts, TERMINAL_PREVIEW_BYTES])

/-!
## ReadCommandOutputTool (`src/core/tools/ReadCommandOutputTool.ts`)

The tool validates its `artifact_id` parameter against the pattern
`cmd-{digits}.txt` before any filesystem operation, then checks that the
artifact exists, validates the byte offset against the file size, and either
greps the file or returns an offset/limit slice. The filesystem is a map
from artifact ids (file names inside the task's `command-output` directory)
to byte contents, and the model returns, alongside the outcome, the list of
artifact ids whose files were touched. Result formatting into a display
string (headers, padded line numbers, human-readable sizes) is not modelled;
the outcome carries the underlying content and flags instead.
-/

/-- Default byte limit for read operations (32KB). -/
def DEFAULT_LIMIT : Nat := 32 * 1024

/-- Parameters accepted by the `read_command_output` tool. `search` carries
only whether a search pattern was supplied; the grep itself reads the whole
file, which is all the verified claims depend on. -/
structure ReadParams where
  artifact_id : List Char
  search : Bool
  offset : Int
  limit : Nat

/-- Outcome of a `read_command_output` call. `okRead` carries the sliced
bytes, the 1-based starting line number and the TRUNCATED flag of the
header; `okSearch` carries the file content handed to the grep. -/
inductive ReadOutcome where
  | errMissingParam
  | errInvalidId
  | errNotFound
  | errBadOffset
  | okRead (content : List Nat) (startLine : Nat) (truncated : Bool)
  | okSearch (fileContent : List Nat)
deriving DecidableEq

/-- Helper for the `^cmd-\d+\.txt$` check: after the `cmd-` head, consume
one or more digits followed by exactly `.txt`. -/
def digitsThenTxt (seenDigit : Bool) : List Char → Bool
  | ['.', 't', 'x', 't'] => seenDigit
  | c :: rest => c.isDigit && digitsThenTxt true rest
  | [] => false

/-- `isValidArtifactId`: the id must match `^cmd-\d+\.txt$`; anything else
(in particular path-traversal attempts) is rejected. -/
def isValidArtifactId (s : List Char) : Bool :=
  match s with
  | 'c' :: 'm' :: 'd' :: '-' :: rest => digitsThenTxt false rest
  | _ => false

/-- `execute(params)`: parameter presence check, artifact-id format check,
existence check (`fs.access`), file-size read (`fs.stat`), offset
validation, then search or offset/limit read. The second component lists
the artifact ids whose files were accessed. -/
def executeRead (fs : List Char → Option (List Nat)) (p : ReadParams) :
    ReadOutcome × List (List Char) :=
  if p.artifact_id = [] then (ReadOutcome.errMissingParam, [])
  else if isValidArtifactId p.artifact_id = false then (ReadOutcome.errInvalidId, [])
  else
    match fs p.artifact_id with
    | Option.none => (ReadOutcome.errNotFound, [p.artifact_id])
    | some content =>
      if p.offset < 0 ∨ (content.length : Int) ≤ p.offset then
        (ReadOutcome.errBadOffset, [p.artifact_id])
      else if p.search then
        (ReadOutcome.okSearch content, [p.artifact_id])
      else
        let off := p.offset.toNat
        let bufLen := min p.limit (content.length - off)
        let sliced := (content.drop off).take bufLen
        let startLine := if 0 < off then (content.take off).count 10 + 1 else 1
        let truncated := decide (off + sliced.length < content.length)
        (ReadOutcome.okRead sliced startLine truncated, [p.artifact_id])

/-- Claim C3: an `artifact_id` that does not match `^cmd-\d+\.txt$` is
rejected with an error before any filesystem access, and every filesystem
access the tool performs is to a validly named artifact. -/
theorem readCommandOutput_path_traversal_guard
    (fs : List Char → Option (List Nat)) (p : ReadParams) :
    (isValidArtifactId p.artifact_id = false →
      (executeRead fs p).2 = [] ∧
      ((executeRead fs p).1 = ReadOutcome.errMissingParam ∨
       (executeRead fs p).1 = ReadOutcome.errInvalidId)) ∧
    (∀ x ∈ (executeRead fs p).2, x = p.artifact_id ∧ isValidArtifactId x = true) := by
  constructor
  · intro hbad
    unfold executeRead
    by_cases hemp : p.artifact_id = []
    · simp [hemp]
    · simp [hemp, hbad]
  · intro x hx
    unfold executeRead at hx
    by_cases hemp : p.artifact_id = []
    · rw [if_pos hemp] at hx
      simp at hx
    · rw [if_neg hemp] at hx
      by_cases hval : isValidArtifactId p.artifact_id
      · rw [if_neg (by simp [hval])] at hx
        have hx2 : x = p.artifact_id := by
          rcases hfs : fs p.artifact_id with _ | content <;> rw [hfs] at hx
          · simpa using hx
          · split at hx
            · simpa using hx
            · split at hx
              · simpa using hx
              · split at hx
                · simpa using hx
                · simpa using hx
        exact ⟨hx2, hx2 ▸ hval⟩
      · rw [if_pos (by simpa using hval)] at hx
        simp at hx

/-- Witness for claim C3: `read_command_output` with artifact_id
`../../etc/passwd` is rejected with no filesystem access. -/
theorem readCommandOutput_path_traversal_guard_witness :
    (executeRead (fun _ => Option.none)
      ⟨("../../etc/passwd").toList, false, 0, DEFAULT_LIMIT⟩).2 = [] ∧
    ((executeRead (fun _ => Option.none)
      ⟨("../../etc/passwd").toList, false, 0, DEFAULT_LIMIT⟩).1 = ReadOutcome.errMissingParam ∨
     (executeRead (fun _ => Option.none)
      ⟨("../../etc/passwd").toList, false, 0, DEFAULT_LIMIT⟩).1 = ReadOutcome.errInvalidId) :=
  (readCommandOutput_path_traversal_guard (fun _ => Option.none)
    ⟨("../../etc/passwd").toList, false, 0, DEFAULT_LIMIT⟩).1 (by decide)

/-- Claim C10: reading an existing artifact without a search pattern: a
negative offset or an offset at or beyond the file size yields an error and
no content; otherwise the returned content is the slice of at most `limit`
bytes of the file starting at `offset` (the default limit being 32 KiB) and
the header marks the result TRUNCATED exactly when `offset` plus the bytes
read is less than the file size. -/
theorem readCommandOutput_offset_limit
    (fs : List Char → Option (List Nat)) (p : ReadParams) (content : List Nat)
    (hfound : fs p.artifact_id = some content)
    (hid : isValidArtifactId p.artifact_id = true)
    (hnosearch : p.search = false) :
    DEFAULT_LIMIT = 32 * 1024 ∧
    ((p.offset < 0 ∨ (content.length : Int) ≤ p.offset) →
      (executeRead fs p).1 = ReadOutcome.errBadOffset) ∧
    (0 ≤ p.offset → p.offset < (content.length : Int) →
      ∃ sl tr,
        (executeRead fs p).1 =
          ReadOutcome.okRead ((content.drop p.offset.toNat).take p.limit) sl tr ∧
        ((content.drop p.offset.toNat).take p.limit).length ≤ p.limit ∧
        (tr = true ↔
          p.offset.toNat + ((content.drop p.offset.toNat).take p.limit).length <
            content.length)) := by
  have hne : p.artifact_id ≠ [] := by
    intro h
    rw [h] at hid
    exact absurd hid (by decide)
  refine ⟨rfl, ?_, ?_⟩
  · intro hbad
    simp [executeRead, hne, hid, hfound, hbad]
  · intro h0 hlt
    have hok : ¬(p.offset < 0 ∨ (content.length : Int) ≤ p.offset) := by omega
    have heq : (content.drop p.offset.toNat).take
        (min p.limit (content.length - p.offset.toNat)) =
        (content.drop p.offset.toNat).take p.limit := by
      apply List.take_eq_take.mpr
      rw [List.length_drop]
      omega
    simp only [executeRead, hne, hid, hfound, hnosearch, if_false,
      Bool.false_eq_true, Bool.true_eq_false, ite_false]
    rw [if_neg hok]
    simp only [heq]
    exact ⟨_, _, rfl, by simp [List.length_take], by simp⟩

/-- Witness for claim C10: reading `cmd-1.txt` (5 bytes) at offset 1 with
limit 2 returns 2 bytes and marks the result TRUNCATED. -/
theorem readCommandOutput_offset_limit_witness :
    ∃ sl tr,
      (executeRead (fun _ => some [104, 105, 10, 107, 108])
        ⟨("cmd-1.txt").toList, false, 1, 2⟩).1 =
        ReadOutcome.okRead
          ((([104, 105, 10, 107, 108] : List Nat).drop (1 : Int).toNat).take 2) sl tr ∧
      ((([104, 105, 10, 107, 108] : List Nat).drop (1 : Int).toNat).take 2).length ≤ 2 ∧
      (tr = true ↔
        (1 : Int).toNat +
          ((([104, 105, 10, 107, 108] : List Nat).drop (1 : Int).toNat).take 2).length <
          ([104, 105, 10, 107, 108] : List Nat).length) :=
  (readCommandOutput_offset_limit (fun _ => some [104, 105, 10, 107, 108])
    ⟨("cmd-1.txt").toList, false, 1, 2⟩ [104, 105, 10, 107, 108] rfl (by decide) rfl).2.2
    (by decide) (by decide)

/-!
## Terminal-spawning extract (`codex-extract-terminal-spawning-tool.md`)

Shell detection and argv derivation, sandbox selection, sandbox-denial
detection, and the approval → execute → one-shot no-sandbox retry
orchestration, embedded from the pseudocode reference implementation in the
extract. The process spawner is abstracted as an oracle `exec : Nat →
ExecOutput` giving the output of the n-th spawned process, so the theorems
quantify over every possible behaviour of the spawned commands.
-/

/-- Supported shell families. -/
inductive ShellType where
  | Bash
  | Zsh
  | PowerShell
  | Sh
  | Cmd
deriving DecidableEq

/-- A detected shell: its family and binary path. -/
structure Shell where
  type : ShellType
  path : String

/-- `derive_exec_args(shell, command, login)`: wrap a freeform command
string into a concrete argv for the detected shell. -/
def derive_exec_args (shell : Shell) (command : String) (login : Bool) : List String :=
  match shell.type with
  | ShellType.Zsh | ShellType.Bash | ShellType.Sh =>
    [shell.path, if login then "-lc" else "-c", command]
  | ShellType.PowerShell =>
    [shell.path] ++ (if login then [] else ["-NoProfile"]) ++ ["-Command", command]
  | ShellType.Cmd => [shell.path, "/c", command]

/-- The spec's enumeration of expected argv shapes, stated independently:
Bash/Zsh/Sh get `[shell.path, login ? "-lc" : "-c", command_text]`,
PowerShell gets `[shell.path] ++ (login ? [] : ["-NoProfile"]) ++
["-Command", command_text]`, Cmd gets `[shell.path, "/c", command_text]`. -/
def derive_args_spec (shell : Shell) (command_text : String) (login : Bool) : List String :=
  match shell.type with
  | ShellType.Bash => [shell.path, if login then "-lc" else "-c", command_text]
  | ShellType.Zsh => [shell.path, if login then "-lc" else "-c", command_text]
  | ShellType.Sh => [shell.path, if login then "-lc" else "-c", command_text]
  | ShellType.PowerShell =>
    shell.path :: ((if login then [] else ["-NoProfile"]) ++ ["-Command", command_text])
  | ShellType.Cmd => [shell.path, "/c", command_text]

/-- Claim C7: for every supported shell type, freeform command and login
flag, `derive_exec_args` produces exactly the argv the spec enumerates, and
its first element is the shell path. -/
theorem derive_exec_args_matches_spec (shell : Shell) (command : String) (login : Bool) :
    derive_exec_args shell command login = derive_args_spec shell command login ∧
    (derive_exec_args shell command login).head? = some shell.path := by
  unfold derive_exec_args derive_args_spec
  rcases shell with ⟨ty, path⟩
  cases ty <;> cases login <;> simp

/-- Platform sandbox types. -/
inductive SandboxType where
  | None
  | MacosSeatbelt
  | LinuxSeccomp
  | WindowsRestricted
deriving DecidableEq

/-- Session-scoped sandbox policies. -/
inductive SandboxPolicy where
  | ReadOnly
  | WorkspaceWrite
  | DangerFullAccess
  | ExternalSandbox
deriving DecidableEq

/-- Host platforms. -/
inductive Platform where
  | macos
  | linux
  | windows
  | other
deriving DecidableEq

/-- Modelled from the spec: the platform-native sandbox of each OS
(`MacosSeatbelt` on macOS, `LinuxSeccomp` on Linux, a restricted token on
Windows); `get_platform_sandbox` is only named, not defined, in the
extract. -/
def platformSandbox : Platform → SandboxType
  | Platform.macos => SandboxType.MacosSeatbelt
  | Platform.linux => SandboxType.LinuxSeccomp
  | Platform.windows => SandboxType.WindowsRestricted
  | Platform.other => SandboxType.None

/-- Modelled from the spec: `get_platform_sandbox()` returns the current
platform's sandbox, or nothing when it is unavailable (for example the
sandbox binary is missing). -/
def get_platform_sandbox (p : Platform) (available : Bool) : Option SandboxType :=
  if available then some (platformSandbox p) else Option.none

/-- `select_sandbox(policy)`: `DangerFullAccess` and `ExternalSandbox`
resolve to `None`; otherwise the platform sandbox with fallback `None`. -/
def select_sandbox (policy : SandboxPolicy) (p : Platform) (available : Bool) : SandboxType :=
  if policy = SandboxPolicy.DangerFullAccess ∨ policy = SandboxPolicy.ExternalSandbox then
    SandboxType.None
  else (get_platform_sandbox p available).getD SandboxType.None

/-- Claim C6: on every platform and availability state, `DangerFullAccess`
and `ExternalSandbox` always select sandbox type `None`, and `ReadOnly` or
`WorkspaceWrite` select either the current platform's own sandbox or `None`
— never another platform's sandbox. -/
theorem select_sandbox_policy_resolution (p : Platform) (available : Bool) :
    select_sandbox SandboxPolicy.DangerFullAccess p available = SandboxType.None ∧
    select_sandbox SandboxPolicy.ExternalSandbox p available = SandboxType.None ∧
    (∀ pol, pol = SandboxPolicy.ReadOnly ∨ pol = SandboxPolicy.WorkspaceWrite →
      select_sandbox pol p available = SandboxType.None ∨
      select_sandbox pol p available = platformSandbox p) := by
  refine ⟨by simp [select_sandbox], by simp [select_sandbox], ?_⟩
  intro pol hpol
  rcases hpol with h | h <;> subst h <;> cases available <;>
    simp [select_sandbox, get_platform_sandbox]

/-- Witness for claim C6: on Linux with the sandbox available, `ReadOnly`
selects the Linux sandbox or `None` (and the other conjuncts at the same
instantiation). -/
theorem select_sandbox_policy_resolution_witness :
    select_sandbox SandboxPolicy.DangerFullAccess Platform.linux true = SandboxType.None ∧
    (select_sandbox SandboxPolicy.ReadOnly Platform.linux true = SandboxType.None ∨
     select_sandbox SandboxPolicy.ReadOnly Platform.linux true = platformSandbox Platform.linux) :=
  have hmain := select_sandbox_policy_resolution Platform.linux true
  ⟨hmain.1, hmain.2.2 SandboxPolicy.ReadOnly (Or.inl rfl)⟩

/-- Policies governing when human approval is requested. -/
inductive ApprovalPolicy where
  | Never
  | UnlessTrusted
  | OnFailure
  | OnRequest
deriving DecidableEq

/-- Decisions returned by the human-in-the-loop approval callback. -/
inductive ReviewDecision where
  | Approved
  | ApprovedForSession
  | Denied
  | Abort
deriving DecidableEq

/-- Result of one process execution. -/
structure ExecOutput where
  exit_code : Int
  stdout : List Char
  stderr : List Char
  timed_out : Bool

/-- ASCII-style lowercasing of a string, as in `.lowercase()`. -/
def toLowerStr (s : List Char) : List Char := s.map Char.toLower

/-- Whether `pat` occurs at the start of the first list. -/
def startsWith : List Char → List Char → Bool
  | _, [] => true
  | [], _ :: _ => false
  | c :: cs, k :: ks => c == k && startsWith cs ks

/-- Whether `pat` occurs contiguously anywhere in `hay`. -/
def containsSeq : List Char → List Char → Bool
  | [], pat => startsWith [] pat
  | c :: rest, pat => startsWith (c :: rest) pat || containsSeq rest pat

/-- The denial keywords scanned for in combined output. -/
def denialKeywords : List (List Char) :=
  [("operation not permitted").toList,
   ("permission denied").toList,
   ("read-only file system").toList]

/-- `is_sandbox_denied(sandbox, output)`: a nonzero exit under a real
sandbox whose combined lowercased output contains a denial keyword. -/
def is_sandbox_denied (sandbox : SandboxType) (o : ExecOutput) : Bool :=
  if sandbox = SandboxType.None ∨ o.exit_code = 0 then false
  else denialKeywords.any (fun k => containsSeq (toLowerStr (o.stdout ++ o.stderr)) k)

/-- Result of `run_shell_tool`, with a ghost count of how many processes
were spawned for the call. -/
structure RunResult where
  rejected : Bool
  output : ExecOutput
  execCount : Nat

/-- `run_shell_tool`: check approval (a denied or aborted decision rejects
the call and spawns nothing); execute once under the selected sandbox; if
the output looks sandbox-denied and the approval policy is not `Never` and
the user approves the retry, re-execute exactly once with no sandbox. The
`exec` oracle supplies the output of the n-th spawned process. -/
def run_shell_tool (approvalDecision : ReviewDecision) (approval_policy : ApprovalPolicy)
    (sandbox_policy : SandboxPolicy) (platform : Platform) (sandboxAvailable : Bool)
    (exec : Nat → ExecOutput) (retryDecision : ReviewDecision) : RunResult :=
  if approvalDecision = ReviewDecision.Denied ∨ approvalDecision = ReviewDecision.Abort then
    { rejected := true, output := ⟨0, [], [], false⟩, execCount := 0 }
  else
    let sandbox := select_sandbox sandbox_policy platform sandboxAvailable
    let output := exec 0
    if is_sandbox_denied sandbox output then
      if approval_policy ≠ ApprovalPolicy.Never then
        if retryDecision = ReviewDecision.Approved then
          { rejected := false, output := exec 1, execCount := 2 }
        else { rejected := false, output := output, execCount := 1 }
      else { rejected := false, output := output, execCount := 1 }
    else { rejected := false, output := output, execCount := 1 }

/-- Claim C5: for every approval decision, policy, sandbox state, retry
decision and every possible behaviour of the spawned processes (including a
second attempt that also fails with denial-looking output), the orchestrator
spawns at most two processes — i.e. at most one re-execution — and it
spawns two only when the first attempt was sandbox-denied, the policy is not
`Never`, and the retry was approved. -/
theorem run_shell_tool_at_most_one_retry
    (approvalDecision : ReviewDecision) (approval_policy : ApprovalPolicy)
    (sandbox_policy : SandboxPolicy) (platform : Platform) (sandboxAvailable : Bool)
    (exec : Nat → ExecOutput) (retryDecision : ReviewDecision) :
    (run_shell_tool approvalDecision approval_policy sandbox_policy platform
      sandboxAvailable exec retryDecision).execCount ≤ 2 ∧
    ((run_shell_tool approvalDecision approval_policy sandbox_policy platform
        sandboxAvailable exec retryDecision).execCount = 2 →
      is_sandbox_denied (select_sandbox sandbox_policy platform sandboxAvailable)
        (exec 0) = true ∧
      approval_policy ≠ ApprovalPolicy.Never ∧
      retryDecision = ReviewDecision.Approved) := by
  simp only [run_shell_tool]
  split
  · simp
  · split
    · split
      · split
        · simp_all
        · simp
      · simp
    · simp

/-- Witness for claim C5: with `OnRequest` policy under the Linux sandbox,
an approved call whose every attempt exits 1 printing "permission denied"
still spawns exactly two processes, and the two-execution conditions hold. -/
theorem run_shell_tool_at_most_one_retry_witness :
    (run_shell_tool ReviewDecision.Approved ApprovalPolicy.OnRequest SandboxPolicy.ReadOnly
      Platform.linux true (fun _ => ⟨1, ("permission denied").toList, [], false⟩)
      ReviewDecision.Approved).execCount ≤ 2 ∧
    (is_sandbox_denied (select_sandbox SandboxPolicy.ReadOnly Platform.linux true)
        ((fun _ => (⟨1, ("permission denied").toList, [], false⟩ : ExecOutput)) 0) = true ∧
      ApprovalPolicy.OnRequest ≠ ApprovalPolicy.Never ∧
      ReviewDecision.Approved = ReviewDecision.Approved) :=
  have hmain := run_shell_tool_at_most_one_retry ReviewDecision.Approved
    ApprovalPolicy.OnRequest SandboxPolicy.ReadOnly Platform.linux true
    (fun _ => ⟨1, ("permission denied").toList, [], false⟩) ReviewDecision.Approved
  ⟨hmain.1, hmain.2 (by decide)⟩

/-!
## HeadTailBuffer (interactive-session output accumulator)

The extract declares `HeadTailBuffer` with `head`/`tail` chunk lists, the
1 MiB cap, and the comment "evict from middle, keep head + tail", but its
implementation is not under `src/`; the buffer is therefore modelled from
the spec: chunks accumulate into `head` while the head region stays within
half the cap, later chunks accumulate into `tail`, and on overflow the
oldest interior chunks (the front of `tail`) are evicted — never the head,
never the most recent chunk.
-/

/-- The hard cap on retained interactive-session output (1 MiB). -/
def UNIFIED_EXEC_OUTPUT_MAX_BYTES : Nat := 1024 * 1024

/-- Bounded byte accumulator preserving the beginning and end of output. -/
structure HeadTailBuffer where
  cap : Nat
  head : List (List Nat)
  tail : List (List Nat)

/-- Total bytes of a chunk list. -/
def bytesOf (l : List (List Nat)) : Nat := (l.map List.length).sum

/-- Modelled from the spec: drop the oldest interior chunks (the front of
the tail) while the total exceeds the cap, but never drop the most recent
chunk. -/
def evictTail (cap headBytes : Nat) : List (List Nat) → List (List Nat)
  | [] => []
  | [c] => [c]
  | c :: d :: rest =>
    if cap < headBytes + bytesOf (c :: d :: rest) then evictTail cap headBytes (d :: rest)
    else c :: d :: rest

/-- Modelled from the spec: `push_chunk` grows the head region while the
tail is empty and the head stays within half the cap; otherwise the chunk
joins the tail and interior chunks are evicted down to the cap. -/
def push_chunk (b : HeadTailBuffer) (c : List Nat) : HeadTailBuffer :=
  if b.tail = [] ∧ bytesOf b.head + c.length ≤ b.cap / 2 then
    { b with head := b.head ++ [c] }
  else
    { b with tail := evictTail b.cap (bytesOf b.head) (b.tail ++ [c]) }

/-- `snapshot_chunks()`: the retained chunks, head first. -/
def snapshot_chunks (b : HeadTailBuffer) : List (List Nat) := b.head ++ b.tail

/-- Push a whole sequence of chunks into a fresh buffer with cap `cap`. -/
def pushAll (cap : Nat) (cs : List (List Nat)) : HeadTailBuffer :=
  cs.foldl push_chunk { cap := cap, head := [], tail := [] }

theorem bytesOf_append (a b : List (List Nat)) :
    bytesOf (a ++ b) = bytesOf a + bytesOf b := by
  simp [bytesOf]

theorem evictTail_suffix (cap hb : Nat) (l : List (List Nat)) :
    ∃ d, l = d ++ evictTail cap hb l := by
  induction l with
  | nil => exact ⟨[], rfl⟩
  | cons c rest ih =>
    cases rest with
    | nil => exact ⟨[], by simp [evictTail]⟩
    | cons d rest2 =>
      by_cases hc : cap < hb + bytesOf (c :: d :: rest2)
      · obtain ⟨e, he⟩ := ih
        refine ⟨c :: e, ?_⟩
        rw [show evictTail cap hb (c :: d :: rest2) = evictTail cap hb (d :: rest2) from by
          simp [evictTail, hc]]
        rw [List.cons_append, ← he]
      · exact ⟨[], by simp [evictTail, hc]⟩

theorem evictTail_over (cap hb : Nat) (l : List (List Nat)) :
    cap < hb + bytesOf (evictTail cap hb l) → (evictTail cap hb l).length ≤ 1 := by
  induction l with
  | nil => intro _; simp [evictTail]
  | cons c rest ih =>
    cases rest with
    | nil => intro _; simp [evictTail]
    | cons d rest2 =>
      by_cases hc : cap < hb + bytesOf (c :: d :: rest2)
      · rw [show evictTail cap hb (c :: d :: rest2) = evictTail cap hb (d :: rest2) from by
          simp [evictTail, hc]]
        exact ih
      · rw [show evictTail cap hb (c :: d :: rest2) = c :: d :: rest2 from by
          simp [evictTail, hc]]
        intro h
        exact absurd h hc

theorem evictTail_of_le (cap hb : Nat) (l : List (List Nat))
    (h : hb + bytesOf l ≤ cap) : evictTail cap hb l = l := by
  cases l with
  | nil => rfl
  | cons c rest =>
    cases rest with
    | nil => rfl
    | cons d rest2 =>
      unfold evictTail
      rw [if_neg (by omega)]

theorem evictTail_getLast (cap hb : Nat) (l : List (List Nat)) (hne : l ≠ []) :
    (evictTail cap hb l).getLast? = l.getLast? ∧ evictTail cap hb l ≠ [] := by
  induction l with
  | nil => exact absurd rfl hne
  | cons c rest ih =>
    cases rest with
    | nil => simp [evictTail]
    | cons d rest2 =>
      by_cases hc : cap < hb + bytesOf (c :: d :: rest2)
      · have hrec := ih (by simp)
        rw [show evictTail cap hb (c :: d :: rest2) = evictTail cap hb (d :: rest2) from by
          simp [evictTail, hc]]
        refine ⟨?_, hrec.2⟩
        rw [hrec.1, List.getLast?_cons_cons]
      · rw [show evictTail cap hb (c :: d :: rest2) = c :: d :: rest2 from by
          simp [evictTail, hc]]
        exact ⟨rfl, by simp⟩

/-- The buffer invariant after pushing `cs`: correct cap; the head region
within half the cap; the retained chunks are a prefix and a suffix of the
pushed sequence with only an interior block missing (empty while the tail
is empty); full retention while under the cap; total retained bytes within
the cap; and a nonempty head as soon as anything was pushed. -/
def HTBInv (cap : Nat) (cs : List (List Nat)) (b : HeadTailBuffer) : Prop :=
  b.cap = cap ∧
  bytesOf b.head ≤ cap / 2 ∧
  (∃ mid, cs = b.head ++ mid ++ b.tail ∧ (b.tail = [] → mid = [])) ∧
  (bytesOf cs ≤ cap → b.head ++ b.tail = cs) ∧
  bytesOf b.head + bytesOf b.tail ≤ cap ∧
  (cs ≠ [] → b.head ≠ [])

theorem pushAll_snoc (cap : Nat) (cs : List (List Nat)) (c : List Nat) :
    pushAll cap (cs ++ [c]) = push_chunk (pushAll cap cs) c := by
  simp [pushAll, List.foldl_append]

theorem bytesOf_singleton (c : List Nat) : bytesOf [c] = c.length := by
  simp [bytesOf]

theorem bytesOf_nil : bytesOf ([] : List (List Nat)) = 0 := rfl

theorem pushAll_inv (cap : Nat) (cs : List (List Nat))
    (hsz : ∀ c ∈ cs, c.length ≤ cap / 2) : HTBInv cap cs (pushAll cap cs) := by
  induction cs using List.reverseRecOn with
  | nil =>
    exact ⟨rfl, by simp [bytesOf, pushAll], ⟨[], by simp [pushAll], fun _ => rfl⟩,
      fun _ => by simp [pushAll], by simp [bytesOf, pushAll], fun h => absurd rfl h⟩
  | append_singleton cs c ih =>
    have hszcs : ∀ x ∈ cs, x.length ≤ cap / 2 :=
      fun x hx => hsz x (List.mem_append_left _ hx)
    have hclen : c.length ≤ cap / 2 :=
      hsz c (List.mem_append_right _ (List.mem_cons_self c []))
    have hinv := ih hszcs
    rw [pushAll_snoc]
    set b := pushAll cap cs with hbdef
    obtain ⟨hbcap, hhead, ⟨mid, hdec, hmid⟩, hunder, hbound, hne⟩ := hinv
    unfold push_chunk
    by_cases hcond : b.tail = [] ∧ bytesOf b.head + c.length ≤ b.cap / 2
    · rw [if_pos hcond]
      obtain ⟨htl, hfit⟩ := hcond
      rw [hbcap] at hfit
      have hheadcs : b.head = cs := by
        have hd := hdec
        rw [hmid htl, htl] at hd
        simpa using hd.symm
      refine ⟨hbcap, ?_, ⟨[], ?_, fun _ => rfl⟩, ?_, ?_, ?_⟩
      · rw [bytesOf_append, bytesOf_singleton]
        omega
      · rw [htl]
        simp [hheadcs]
      · intro _
        rw [htl]
        simp [hheadcs]
      · rw [htl, bytesOf_nil, bytesOf_append, bytesOf_singleton]
        omega
      · intro _
        simp
    · rw [if_neg hcond]
      obtain ⟨e, he⟩ :=
        evictTail_suffix b.cap (bytesOf b.head) (b.tail ++ [c])
      have hlast :=
        evictTail_getLast b.cap (bytesOf b.head) (b.tail ++ [c]) (by simp)
      refine ⟨hbcap, hhead, ⟨mid ++ e, ?_, ?_⟩, ?_, ?_, ?_⟩
      · conv_lhs => rw [hdec]
        simp only [List.append_assoc]
        conv_lhs => rw [he]
      · intro ht
        exact absurd ht hlast.2
      · intro hlecap
        have h1 : bytesOf cs ≤ cap := by
          rw [bytesOf_append, bytesOf_singleton] at hlecap
          omega
        have h2 := hunder h1
        have h4 := congrArg bytesOf h2
        rw [bytesOf_append] at h4
        have h3 : bytesOf b.head + bytesOf (b.tail ++ [c]) ≤ cap := by
          rw [bytesOf_append, bytesOf_singleton]
          rw [bytesOf_append, bytesOf_singleton] at hlecap
          omega
        show b.head ++ evictTail b.cap (bytesOf b.head) (b.tail ++ [c]) = cs ++ [c]
        rw [evictTail_of_le b.cap (bytesOf b.head) (b.tail ++ [c]) (by omega)]
        rw [← List.append_assoc, h2]
      · show bytesOf b.head +
          bytesOf (evictTail b.cap (bytesOf b.head) (b.tail ++ [c])) ≤ cap
        by_cases hover : b.cap < bytesOf b.head +
            bytesOf (evictTail b.cap (bytesOf b.head) (b.tail ++ [c]))
        · exfalso
          have hlen := evictTail_over b.cap (bytesOf b.head) (b.tail ++ [c]) hover
          rcases hx : evictTail b.cap (bytesOf b.head) (b.tail ++ [c]) with _ | ⟨x, xs⟩
          · exact hlast.2 hx
          · have hxs : xs = [] := by
              rw [hx] at hlen
              simpa using hlen
            have hxmem : x ∈ b.tail ++ [c] := by
              rw [he, hx, hxs]
              simp
            have hxlen : x.length ≤ cap / 2 := by
              rcases List.mem_append.mp hxmem with hmem | hmem
              · have hxcs : x ∈ cs := by
                  rw [hdec]
                  exact List.mem_append_right _ hmem
                exact hszcs x hxcs
              · rw [List.mem_singleton.mp hmem]
                exact hclen
            rw [hx, hxs, bytesOf_singleton] at hover
            omega
        · omega
      · intro _
        by_cases hcs : cs = []
        · exfalso
          apply hcond
          have hbeq : b = pushAll cap [] := by rw [hbdef, hcs]
          constructor
          · rw [hbeq]
            rfl
          · rw [hbeq]
            show bytesOf (pushAll cap []).head + c.length ≤ (pushAll cap []).cap / 2
            simpa [pushAll, bytesOf] using hclen
        · exact hne hcs

/-- Claim C8: pushing chunks (each no larger than half the cap) into a
HeadTailBuffer: while the total stays within the cap nothing is evicted and
the snapshot is exactly the pushed sequence in order; in general the
retained bytes never exceed the cap (`head_bytes + tail_bytes ≤ cap`), the
snapshot is the pushed sequence with only an interior block removed, and
the earliest and the most recent chunks are always preserved. -/
theorem headTailBuffer_cap_invariant (cap : Nat) (cs : List (List Nat))
    (hsz : ∀ c ∈ cs, c.length ≤ cap / 2) :
    (bytesOf cs ≤ cap → snapshot_chunks (pushAll cap cs) = cs) ∧
    bytesOf (pushAll cap cs).head + bytesOf (pushAll cap cs).tail ≤ cap ∧
    (∃ mid, cs = (pushAll cap cs).head ++ mid ++ (pushAll cap cs).tail) ∧
    (cs ≠ [] →
      (snapshot_chunks (pushAll cap cs)).head? = cs.head? ∧
      (snapshot_chunks (pushAll cap cs)).getLast? = cs.getLast?) := by
  obtain ⟨hbcap, hhead, ⟨mid, hdec, hmid⟩, hunder, hbound, hne⟩ := pushAll_inv cap cs hsz
  refine ⟨hunder, hbound, ⟨mid, hdec⟩, ?_⟩
  intro hcs
  have hh := hne hcs
  have hdec2 : cs = (pushAll cap cs).head ++ (mid ++ (pushAll cap cs).tail) :=
    hdec.trans (List.append_assoc _ _ _)
  by_cases htl : (pushAll cap cs).tail = []
  · have hm := hmid htl
    have hsnap : snapshot_chunks (pushAll cap cs) = cs := by
      show (pushAll cap cs).head ++ (pushAll cap cs).tail = cs
      conv_rhs => rw [hdec]
      rw [hm, htl]
      simp
    rw [hsnap]
    exact ⟨rfl, rfl⟩
  · constructor
    · show ((pushAll cap cs).head ++ (pushAll cap cs).tail).head? = cs.head?
      rw [List.head?_append_of_ne_nil _ hh]
      conv_rhs => rw [hdec2]
      rw [List.head?_append_of_ne_nil _ hh]
    · show ((pushAll cap cs).head ++ (pushAll cap cs).tail).getLast? = cs.getLast?
      rw [List.getLast?_append_of_ne_nil _ htl]
      conv_rhs => rw [hdec]
      rw [List.getLast?_append_of_ne_nil _ htl]

/-- Witness for claim C8: three small chunks under the default 1 MiB cap
are retained in full and in order. -/
theorem headTailBuffer_cap_invariant_witness :
    (bytesOf [[1, 2], [3], [4, 5, 6]] ≤ UNIFIED_EXEC_OUTPUT_MAX_BYTES →
      snapshot_chunks (pushAll UNIFIED_EXEC_OUTPUT_MAX_BYTES [[1, 2], [3], [4, 5, 6]]) =
        [[1, 2], [3], [4, 5, 6]]) ∧
    bytesOf (pushAll UNIFIED_EXEC_OUTPUT_MAX_BYTES [[1, 2], [3], [4, 5, 6]]).head +
      bytesOf (pushAll UNIFIED_EXEC_OUTPUT_MAX_BYTES [[1, 2], [3], [4, 5, 6]]).tail ≤
        UNIFIED_EXEC_OUTPUT_MAX_BYTES ∧
    (∃ mid, [[1, 2], [3], [4, 5, 6]] =
      (pushAll UNIFIED_EXEC_OUTPUT_MAX_BYTES [[1, 2], [3], [4, 5, 6]]).head ++ mid ++
      (pushAll UNIFIED_EXEC_OUTPUT_MAX_BYTES [[1, 2], [3], [4, 5, 6]]).tail) ∧
    (([[1, 2], [3], [4, 5, 6]] : List (List Nat)) ≠ [] →
      (snapshot_chunks (pushAll UNIFIED_EXEC_OUTPUT_MAX_BYTES
        [[1, 2], [3], [4, 5, 6]])).head? = ([[1, 2], [3], [4, 5, 6]] : List (List Nat)).head? ∧
      (snapshot_chunks (pushAll UNIFIED_EXEC_OUTPUT_MAX_BYTES
        [[1, 2], [3], [4, 5, 6]])).getLast? =
          ([[1, 2], [3], [4, 5, 6]] : List (List Nat)).getLast?) :=
  headTailBuffer_cap_invariant UNIFIED_EXEC_OUTPUT_MAX_BYTES [[1, 2], [3], [4, 5, 6]]
    (by decide)
